import Mathlib

/-!
Shallow embedding of `backend/vector_search.py` (class `VectorStore`), the
semantic code-snippet search subsystem, in its local FAISS configuration
(`use_pinecone = False`, `FAISS_AVAILABLE = True`): the cloud backend needs a
network service and is out of scope.  The embedding model
(`SentenceTransformer.encode`) is an opaque external function `String → List ℤ`
carried in the store state; float components are idealised as exact integers
(`ℤ`), which preserves every order/set-level property the claims speak about
— no claim depends on fractional values or rounding, only on which ids are
returned, in which order, and on lengths and language tags.  The FAISS flat index
(`faiss.IndexFlatL2`) is modelled faithfully to its documented behaviour:
`add` appends and asserts the dimension, `search` returns exactly `k`
(index, distance) pairs ranked by squared L2 distance, padding the missing
tail with index `-1` and a huge distance when fewer than `k` vectors are
stored.  The on-disk artifacts (`faiss_index.bin`, `vector_metadata.json`)
are modelled as optional fields holding the last written contents; Python
list indexing (including negative wrap-around and `IndexError`) is modelled
by `pyGet`.
-/

namespace VectorSearch

/-- One record of `self.metadata_store` as built in `store_snippet`
(lines 131–137 of `vector_search.py`). -/
structure Metadata where
  id : Nat
  code : String
  description : String
  language : String
  user_id : Option String
deriving DecidableEq

/-- One dict of the list returned by `search` (lines 200–205). -/
structure SearchResult where
  code : String
  description : String
  language : String
  score : ℤ
deriving DecidableEq

/-- Python-level exceptions the modelled code can raise: `IndexError` from
`self.metadata_store[idx]`, and the dimension assertion raised by
`faiss.Index.add` / `faiss.Index.search` when a vector's length differs from
the index dimension. -/
inductive PyErr where
  | indexError : PyErr
  | dimensionMismatch : PyErr
deriving DecidableEq

/-- Contents of the two persisted artifacts; `none` models a missing file
(first run). -/
structure Files where
  indexFile : Option (List (List ℤ))
  metadataFile : Option (List Metadata)

/-- State of a `VectorStore` object on the FAISS path.  `enabled` is
`self.enabled`; `encode` is the sentence-transformer model; `vectors` is the
content of the FAISS flat index (`self.index`, ids are positions `0..n-1`);
`metadataStore` is `self.metadata_store`; the two file fields are what is
currently on disk under `self.index_file` / `self.metadata_file`. -/
structure VectorStore where
  enabled : Bool
  encode : String → List ℤ
  vectors : List (List ℤ)
  metadataStore : List Metadata
  indexFile : Option (List (List ℤ))
  metadataFile : Option (List Metadata)

/-- `self.embedding_dim = 384  # Dimension for all-MiniLM-L6-v2` (line 45). -/
def embeddingDim : Nat := 384

/-- Squared Euclidean distance, the metric of `faiss.IndexFlatL2`. -/
def sqDist (u v : List ℤ) : ℤ :=
  ((List.zip u v).map (fun p => (p.1 - p.2) * (p.1 - p.2))).sum

/-- Candidate ordering used to rank search hits: by distance, ties by lower
index (a deterministic choice consistent with FAISS's stable flat scan). -/
def candLE (a b : Int × ℤ) : Bool :=
  decide (a.2 < b.2 ∨ (a.2 = b.2 ∧ a.1 ≤ b.1))

/-- Insertion step of the ranking sort. -/
def insertSorted (a : Int × ℤ) : List (Int × ℤ) → List (Int × ℤ)
  | [] => [a]
  | b :: bs => if candLE a b then a :: b :: bs else b :: insertSorted a bs

/-- Rank all scored candidates (insertion sort by `candLE`). -/
def sortCands : List (Int × ℤ) → List (Int × ℤ)
  | [] => []
  | a :: as => insertSorted a (sortCands as)

/-- Distance FAISS reports for the `-1` padding entries (`FLT_MAX`, about
`3.4e38`; its exact value is immaterial to every claim). -/
def padDist : ℤ := 34028235 * 10 ^ 31

/-- `faiss.IndexFlatL2.search` on a single query: score every stored vector,
rank by distance, return exactly `k` entries, padding with `(-1, FLT_MAX)`
when fewer than `k` vectors are stored. -/
def faissSearch (vecs : List (List ℤ)) (q : List ℤ) (k : Nat) : List (Int × ℤ) :=
  let scored := (List.range vecs.length).map
    (fun i : Nat => ((i : Int), sqDist (vecs.getD i []) q))
  let top := (sortCands scored).take k
  top ++ List.replicate (k - top.length) ((-1 : Int), padDist)

/-- `faiss.Index.add` for a single vector: appends, after asserting that the
vector's length equals the index dimension `d` (FAISS raises on mismatch). -/
def faissAdd (d : Nat) (vecs : List (List ℤ)) (v : List ℤ) :
    Except PyErr (List (List ℤ)) :=
  if v.length = d then .ok (vecs ++ [v]) else .error .dimensionMismatch

/-- Python list subscription `l[i]`: non-negative indices are direct,
negative indices wrap from the end, out-of-range is `IndexError` (`none`). -/
def pyGet {α : Type} (l : List α) (i : Int) : Option α :=
  if 0 ≤ i then l.get? i.toNat
  else if 0 ≤ (l.length : Int) + i then l.get? ((l.length : Int) + i).toNat
  else none

/-- The guard `if language and metadata["language"] != language: continue`
(line 197): the record is skipped iff `language` is truthy (a non-empty
string) and differs from the record's tag.  `none` models passing
`language=None`. -/
def langSkip (language : Option String) (recordLanguage : String) : Bool :=
  match language with
  | none => false
  | some l => if l = "" then false else decide (recordLanguage ≠ l)

/-- `VectorStore.__init__` on the FAISS path.  When sentence-transformers is
unavailable the constructor returns immediately with `enabled = False`
(lines 39–41); otherwise `_init_faiss` loads an existing index file (or makes
an empty one) and `_load_metadata` loads the metadata file (or keeps `[]`). -/
def initStore (sentenceTransformersAvailable : Bool) (encode : String → List ℤ)
    (fs : Files) : VectorStore :=
  if sentenceTransformersAvailable then
    { enabled := true, encode := encode,
      vectors := fs.indexFile.getD [],
      metadataStore := fs.metadataFile.getD [],
      indexFile := fs.indexFile, metadataFile := fs.metadataFile }
  else
    { enabled := false, encode := encode, vectors := [], metadataStore := [],
      indexFile := fs.indexFile, metadataFile := fs.metadataFile }

/-- A freshly constructed enabled store with no files on disk (first run). -/
def emptyStore (encode : String → List ℤ) : VectorStore :=
  initStore true encode ⟨none, none⟩

/-- `VectorStore.store_snippet` (lines 111–152), FAISS path: return `"0"`
when disabled; embed `f"{description}\n\n{code}"`; build the metadata dict
with `id = len(self.metadata_store)`; `self.index.add` (which asserts the
dimension), append the metadata, write both files; return `str(id)`.  The
pair returned is (object state after the call, result or raised error). -/
def store_snippet (st : VectorStore) (code description language : String)
    (user_id : Option String) : VectorStore × Except PyErr String :=
  if st.enabled then
    let searchableText := description ++ "\n\n" ++ code
    let embedding := st.encode searchableText
    let metadata : Metadata :=
      ⟨st.metadataStore.length, code, description, language, user_id⟩
    match faissAdd embeddingDim st.vectors embedding with
    | .error e => (st, .error e)
    | .ok vecs2 =>
      let meta2 := st.metadataStore ++ [metadata]
      ({ st with vectors := vecs2, metadataStore := meta2,
                 indexFile := some vecs2, metadataFile := some meta2 },
       .ok (toString metadata.id))
  else (st, .ok "0")

/-- The `for idx, distance in zip(indices[0], distances[0])` loop of `search`
(lines 191–208): skip indices `≥ len(metadata_store)`; subscript the metadata
list (Python semantics, may raise `IndexError`); skip language mismatches;
append the result dict; break once `len(results) >= limit`. -/
def searchLoop (meta : List Metadata) (language : Option String) (limit : Nat) :
    List SearchResult → List (Int × ℤ) → Except PyErr (List SearchResult)
  | acc, [] => .ok acc
  | acc, c :: rest =>
    if c.1 < (meta.length : Int) then
      match pyGet meta c.1 with
      | none => .error .indexError
      | some m =>
        if langSkip language m.language then
          searchLoop meta language limit acc rest
        else
          let acc2 := acc ++ [⟨m.code, m.description, m.language, c.2⟩]
          if limit ≤ acc2.length then .ok acc2
          else searchLoop meta language limit acc2 rest
    else searchLoop meta language limit acc rest

/-- `VectorStore.search` (lines 154–210), FAISS path: `[]` when disabled;
embed the query; `self.index.search(..., limit * 2)` (FAISS asserts the query
dimension); then the filtering loop. -/
def search (st : VectorStore) (query : String) (language : Option String)
    (limit : Nat) : Except PyErr (List SearchResult) :=
  if st.enabled then
    let queryEmbedding := st.encode query
    if queryEmbedding.length = embeddingDim then
      searchLoop st.metadataStore language limit []
        (faissSearch st.vectors queryEmbedding (limit * 2))
    else .error .dimensionMismatch
  else .ok []

/-- `VectorStore.delete_snippet` (lines 212–219), FAISS path: the body is
`pass` (the source comments: "FAISS doesn't support deletion easily / Would
need to rebuild index excluding the item"), so the state is unchanged. -/
def delete_snippet (st : VectorStore) (_snippet_id : String) : VectorStore :=
  st

/-- The body of one `search`-loop iteration as a partial function on a
candidate, used to characterise the loop as `filterMap` + `take`. -/
def candResult (meta : List Metadata) (language : Option String)
    (c : Int × ℤ) : Option SearchResult :=
  if c.1 < (meta.length : Int) then
    match pyGet meta c.1 with
    | none => none
    | some m =>
      if langSkip language m.language then none
      else some ⟨m.code, m.description, m.language, c.2⟩
  else none

/-- Run a sequence of `store_snippet` calls (code, description, language),
collecting the returned ids. -/
def runStores : VectorStore → List (String × String × String) →
    VectorStore × List (Except PyErr String)
  | st, [] => (st, [])
  | st, p :: rest =>
    let r := store_snippet st p.1 p.2.1 p.2.2 none
    let w := runStores r.1 rest
    (w.1, r.2 :: w.2)

/-- States reachable from a freshly constructed enabled FAISS-backed store by
any sequence of `store_snippet` and `delete_snippet` calls (`search` never
mutates the state: the model of `search` is a pure function). -/
inductive Reachable (encode : String → List ℤ) : VectorStore → Prop
  | init : Reachable encode (emptyStore encode)
  | store (st : VectorStore) (code description language : String)
      (user_id : Option String) : Reachable encode st →
      Reachable encode (store_snippet st code description language user_id).1
  | delete (st : VectorStore) (snippet_id : String) : Reachable encode st →
      Reachable encode (delete_snippet st snippet_id)

/-- Invariant maintained by every reachable state: the store is enabled, the
encoder is the constructor-given one, the metadata ids are exactly the index
positions `0..n-1`, and the files on disk hold the in-memory state. -/
def goodStore (encode : String → List ℤ) (st : VectorStore) : Prop :=
  st.enabled = true ∧ st.encode = encode ∧
  st.metadataStore.map Metadata.id = List.range st.vectors.length ∧
  st.indexFile.getD [] = st.vectors ∧
  st.metadataFile.getD [] = st.metadataStore

/-- The all-zeros 384-dimensional encoder used for concrete witness states
(matching the reference deployment's dimension). -/
def enc384 : String → List ℤ := fun _ => List.replicate 384 0

/-- An encoder of the wrong output dimension, for the dimension-mismatch
witness. -/
def encBad : String → List ℤ := fun _ => []

/-- A store holding exactly one python snippet. -/
def st1 : VectorStore :=
  (store_snippet (emptyStore enc384) "print(1)" "print one" "python" none).1

/-- A disabled store (sentence-transformers unavailable at construction). -/
def stDisabled : VectorStore := initStore false enc384 ⟨none, none⟩

theorem length_insertSorted (a : Int × ℤ) (l : List (Int × ℤ)) :
    (insertSorted a l).length = l.length + 1 := by
  induction l with
  | nil => rfl
  | cons b bs ih =>
    cases hc : candLE a b <;> simp [insertSorted, hc, ih]

theorem length_sortCands (l : List (Int × ℤ)) :
    (sortCands l).length = l.length := by
  induction l with
  | nil => rfl
  | cons a as ih => simp [sortCands, length_insertSorted, ih]

theorem mem_insertSorted {x a : Int × ℤ} :
    ∀ {l : List (Int × ℤ)}, x ∈ insertSorted a l → x = a ∨ x ∈ l := by
  intro l
  induction l with
  | nil => intro h; simpa [insertSorted] using h
  | cons b bs ih =>
    intro h
    rw [List.mem_cons]
    cases hc : candLE a b <;> simp [insertSorted, hc, List.mem_cons] at h
    · rcases h with h | h
      · exact Or.inr (Or.inl h)
      · rcases ih h with h2 | h2
        · exact Or.inl h2
        · exact Or.inr (Or.inr h2)
    · rcases h with h | h | h
      · exact Or.inl h
      · exact Or.inr (Or.inl h)
      · exact Or.inr (Or.inr h)

theorem mem_sortCands {x : Int × ℤ} :
    ∀ {l : List (Int × ℤ)}, x ∈ sortCands l → x ∈ l := by
  intro l
  induction l with
  | nil => intro h; simp [sortCands] at h
  | cons a as ih =>
    intro h
    rcases mem_insertSorted h with h2 | h2
    · exact h2 ▸ List.mem_cons_self a as
    · exact List.mem_cons_of_mem a (ih h2)

theorem length_faissSearch (vecs : List (List ℤ)) (q : List ℤ) (k : Nat) :
    (faissSearch vecs q k).length = k := by
  have htop : ((sortCands ((List.range vecs.length).map
      (fun i : Nat => ((i : Int), sqDist (vecs.getD i []) q)))).take k).length ≤ k := by
    simp [List.length_take]
  simp only [faissSearch, List.length_append, List.length_replicate]
  omega

theorem faissSearch_fst {vecs : List (List ℤ)} {q : List ℤ} {k : Nat}
    {c : Int × ℤ} (h : c ∈ faissSearch vecs q k) :
    c.1 = -1 ∨ (0 ≤ c.1 ∧ c.1 < (vecs.length : Int)) := by
  simp only [faissSearch, List.mem_append] at h
  rcases h with h | h
  · have h2 := mem_sortCands (List.mem_of_mem_take h)
    simp only [List.mem_map, List.mem_range] at h2
    obtain ⟨i, hi, hix⟩ := h2
    have hc1 : c.1 = (i : Int) := by rw [← hix]
    right
    rw [hc1]
    exact ⟨Int.ofNat_nonneg i, by exact_mod_cast hi⟩
  · left
    have := List.eq_of_mem_replicate h
    rw [this]

theorem pyGet_some {meta : List Metadata} {i : Int} (hm : meta ≠ [])
    (h1 : -1 ≤ i) (h2 : i < (meta.length : Int)) :
    ∃ m, pyGet meta i = some m := by
  have hlen : 0 < meta.length := List.length_pos.mpr hm
  by_cases h0 : 0 ≤ i
  · have htn : i.toNat < meta.length := by omega
    exact ⟨meta.get ⟨i.toNat, htn⟩, by simp [pyGet, h0, List.get?_eq_get htn]⟩
  · have hi1 : i = -1 := by omega
    subst hi1
    have hnn : 0 ≤ (meta.length : Int) + -1 := by omega
    have htn : ((meta.length : Int) + -1).toNat < meta.length := by omega
    refine ⟨meta.get ⟨((meta.length : Int) + -1).toNat, htn⟩, ?_⟩
    simp only [pyGet]
    rw [if_neg (by omega), if_pos hnn, List.get?_eq_get htn]

theorem searchLoop_lang {L : String} (hL : L ≠ "") (meta : List Metadata)
    (limit : Nat) :
    ∀ (cands : List (Int × ℤ)) (acc res : List SearchResult),
    acc.all (fun r => r.language == L) = true →
    searchLoop meta (some L) limit acc cands = .ok res →
    res.all (fun r => r.language == L) = true := by
  intro cands
  induction cands with
  | nil =>
    intro acc res hacc h
    simp only [searchLoop] at h
    cases h
    exact hacc
  | cons c rest ih =>
    intro acc res hacc h
    simp only [searchLoop] at h
    by_cases hg : c.1 < (meta.length : Int)
    · rw [if_pos hg] at h
      cases hget : pyGet meta c.1 with
      | none => simp only [hget] at h; simp at h
      | some m =>
        simp only [hget] at h
        by_cases hs : langSkip (some L) m.language = true
        · rw [if_pos hs] at h
          exact ih acc res hacc h
        · rw [if_neg hs] at h
          have hml : m.language = L := by
            simpa [langSkip, hL] using hs
          by_cases hb : limit ≤ (acc ++ [(⟨m.code, m.description, m.language, c.2⟩ : SearchResult)]).length
          · rw [if_pos hb] at h
            cases h
            simp [List.all_append, hacc, hml]
          · rw [if_neg hb] at h
            refine ih _ res ?_ h
            simp [List.all_append, hacc, hml]
    · rw [if_neg hg] at h
      exact ih acc res hacc h

theorem searchLoop_eq (meta : List Metadata) (language : Option String)
    (limit : Nat) :
    ∀ (cands : List (Int × ℤ)) (acc : List SearchResult),
    meta ≠ [] → (∀ c ∈ cands, (-1 : Int) ≤ c.1) → acc.length < limit →
    searchLoop meta language limit acc cands =
      .ok (acc ++ (cands.filterMap (candResult meta language)).take
        (limit - acc.length)) := by
  intro cands
  induction cands with
  | nil => intro acc _ _ _; simp [searchLoop]
  | cons c rest ih =>
    intro acc hm hc ha
    have hrest : ∀ x ∈ rest, (-1 : Int) ≤ x.1 :=
      fun x hx => hc x (List.mem_cons_of_mem _ hx)
    simp only [searchLoop, List.filterMap_cons]
    by_cases hg : c.1 < (meta.length : Int)
    · rw [if_pos hg]
      obtain ⟨m, hget⟩ := pyGet_some hm (hc c (List.mem_cons_self c rest)) hg
      have hcr : candResult meta language c =
          if langSkip language m.language then none
          else some ⟨m.code, m.description, m.language, c.2⟩ := by
        simp [candResult, hg, hget]
      simp only [hget]
      by_cases hs : langSkip language m.language = true
      · rw [if_pos hs]
        rw [hcr, if_pos hs]
        exact ih acc hm hrest ha
      · rw [if_neg hs]
        rw [hcr, if_neg hs]
        by_cases hb : limit ≤ (acc ++ [(⟨m.code, m.description, m.language, c.2⟩ : SearchResult)]).length
        · rw [if_pos hb]
          have hlim : limit - acc.length = 1 := by
            simp only [List.length_append, List.length_singleton] at hb
            omega
          rw [hlim]
          simp
        · rw [if_neg hb]
          have ha2 : (acc ++ [(⟨m.code, m.description, m.language, c.2⟩ : SearchResult)]).length < limit := by
            omega
          rw [ih _ hm hrest ha2]
          have hlim : limit - acc.length =
              (limit - (acc ++ [(⟨m.code, m.description, m.language, c.2⟩ : SearchResult)]).length) + 1 := by
            simp only [List.length_append, List.length_singleton] at hb ⊢
            omega
          rw [hlim]
          simp [List.take_succ_cons, List.append_assoc]
    · rw [if_neg hg]
      have hcr : candResult meta language c = none := by
        simp [candResult, hg]
      rw [hcr]
      exact ih acc hm hrest ha

theorem reachable_good {encode : String → List ℤ} {st : VectorStore}
    (h : Reachable encode st) : goodStore encode st := by
  induction h with
  | init => simp [goodStore, emptyStore, initStore]
  | store st code description language user_id hr ih =>
    obtain ⟨hen, henc, hjoin, hif, hmf⟩ := ih
    subst henc
    have hlenmeta : st.metadataStore.length = st.vectors.length := by
      simpa using congrArg List.length hjoin
    by_cases hlen :
        (st.encode (description ++ "\n\n" ++ code)).length = embeddingDim
    · refine ⟨?_, ?_, ?_, ?_, ?_⟩ <;>
        simp [store_snippet, hen, faissAdd, hlen, hjoin,
          List.range_succ, hlenmeta]
    · refine ⟨?_, ?_, ?_, ?_, ?_⟩ <;>
        simp [store_snippet, hen, faissAdd, hlen, hjoin, hif, hmf]
  | delete st snippet_id hr ih => exact ih

/-- Constructing a fresh `VectorStore` over the files last written by a
reachable store reproduces that store's state exactly. -/
theorem load_roundtrip {encode : String → List ℤ} {st : VectorStore}
    (h : Reachable encode st) :
    initStore true encode ⟨st.indexFile, st.metadataFile⟩ = st := by
  obtain ⟨hen, henc, _, hif, hmf⟩ := reachable_good h
  cases st with
  | mk en enc v m fi fm =>
    simp only at hen henc hif hmf
    subst hen henc
    simp [initStore, hif, hmf]

theorem runStores_ids (encode : String → List ℤ) :
    ∀ (inputs : List (String × String × String)) (st : VectorStore),
    st.enabled = true → st.encode = encode →
    (inputs.all
      (fun p => (encode (p.2.1 ++ "\n\n" ++ p.1)).length == embeddingDim)) = true →
    (runStores st inputs).2 =
      (List.range' st.metadataStore.length inputs.length).map
        (fun i => Except.ok (toString i)) := by
  intro inputs
  induction inputs with
  | nil => intro st _ _ _; simp [runStores]
  | cons p rest ih =>
    intro st hen henc hall
    rw [List.all_cons, Bool.and_eq_true] at hall
    have hlen : (st.encode (p.2.1 ++ "\n\n" ++ p.1)).length = embeddingDim := by
      rw [henc]
      simpa using hall.1
    have hstep : store_snippet st p.1 p.2.1 p.2.2 none =
        ({ st with
            vectors := st.vectors ++ [st.encode (p.2.1 ++ "\n\n" ++ p.1)],
            metadataStore := st.metadataStore ++
              [⟨st.metadataStore.length, p.1, p.2.1, p.2.2, none⟩],
            indexFile := some (st.vectors ++ [st.encode (p.2.1 ++ "\n\n" ++ p.1)]),
            metadataFile := some (st.metadataStore ++
              [⟨st.metadataStore.length, p.1, p.2.1, p.2.2, none⟩]) },
         .ok (toString st.metadataStore.length)) := by
      simp [store_snippet, hen, faissAdd, hlen]
    simp only [runStores]
    rw [hstep]
    simp only [List.length_cons, List.range'_succ, List.map_cons]
    rw [ih { st with
        vectors := st.vectors ++ [st.encode (p.2.1 ++ "\n\n" ++ p.1)],
        metadataStore := st.metadataStore ++
          [⟨st.metadataStore.length, p.1, p.2.1, p.2.2, none⟩],
        indexFile := some (st.vectors ++ [st.encode (p.2.1 ++ "\n\n" ++ p.1)]),
        metadataFile := some (st.metadataStore ++
          [⟨st.metadataStore.length, p.1, p.2.1, p.2.2, none⟩]) } hen henc hall.2]
    simp

set_option maxRecDepth 40000

/-- C1: after every `store_snippet`, `search`, or `delete_snippet` operation
on an enabled FAISS-backed `VectorStore` (any state reachable from a fresh
store), the ids present in the vector index — the FAISS flat-index positions
`0..n-1` — coincide exactly with the ids recorded in the metadata store, so
no vector ever lacks its metadata record or vice versa.  (`search` is a pure
function here, and `delete_snippet` is a no-op, so neither store has any
tombstones: the non-tombstoned ids are all ids.)  In this sequential model
each operation is atomic, so no partial state is observable to a subsequent
`search`. -/
theorem C1_join_invariant (encode : String → List ℤ) (st : VectorStore)
    (h : Reachable encode st) :
    st.metadataStore.map Metadata.id = List.range st.vectors.length :=
  (reachable_good h).2.2.1

theorem C1_join_invariant_witness :
    st1.metadataStore.map Metadata.id = List.range st1.vectors.length :=
  C1_join_invariant enc384 st1
    (Reachable.store (emptyStore enc384) "print(1)" "print one" "python" none
      Reachable.init)

/-- C2: starting from an empty enabled FAISS-backed store, N sequential
`store_snippet` calls return the ids `"0", "1", …, "N-1"` (stringified) in
call order — each id is `str(len(self.metadata_store))` at the moment of the
call.  The hypothesis states that the embedding model produces vectors of
the index dimension (384), which the deployed sentence-transformer model
always does. -/
theorem C2_id_monotonicity (encode : String → List ℤ)
    (inputs : List (String × String × String))
    (h : (inputs.all
      (fun p => (encode (p.2.1 ++ "\n\n" ++ p.1)).length == embeddingDim)) = true) :
    (runStores (emptyStore encode) inputs).2 =
      (List.range inputs.length).map (fun i => Except.ok (toString i)) := by
  rw [runStores_ids encode inputs (emptyStore encode) rfl rfl h]
  simp [emptyStore, initStore, List.range_eq_range']

theorem C2_id_monotonicity_witness :
    ([("a", "b", "python"), ("c", "d", "js"), ("e", "f", "python")].all
      (fun p => (enc384 (p.2.1 ++ "\n\n" ++ p.1)).length == embeddingDim)) = true ∧
    (runStores (emptyStore enc384)
        [("a", "b", "python"), ("c", "d", "js"), ("e", "f", "python")]).2 =
      (List.range 3).map (fun i => Except.ok (toString i)) :=
  ⟨by decide, C2_id_monotonicity enc384 _ (by decide)⟩

/-- C3, counterexample: the claim fails for the language filter value
`L = ""`.  Python's `if language and ...` treats the empty string as falsy,
so `search(query, language="", limit)` skips the language filter entirely and
returns records whose language tag (`"python"` here) differs from `""`. -/
theorem C3_language_filter_counterexample :
    ((search st1 "q" (some "") 5).toOption.getD []).any
      (fun r => r.language != "") = true := by
  decide

/-- C3, amended: for every store state, query, and NON-EMPTY language filter
value L, no record whose language tag differs from L appears in the result
of `search(query, language=L, limit)`, even when fewer than `limit` records
of language L exist among the nearest neighbors. -/
theorem C3_language_filter_amended (st : VectorStore) (query L : String)
    (limit : Nat) (res : List SearchResult) (hL : L ≠ "")
    (h : search st query (some L) limit = .ok res) :
    res.all (fun r => r.language == L) = true := by
  by_cases hen : st.enabled = true
  · simp only [search] at h
    rw [if_pos hen] at h
    by_cases hq : (st.encode query).length = embeddingDim
    · rw [if_pos hq] at h
      exact searchLoop_lang hL st.metadataStore limit _ [] res rfl h
    · rw [if_neg hq] at h
      cases h
  · simp only [search] at h
    rw [if_neg hen] at h
    cases h
    rfl

theorem C3_language_filter_witness :
    ("python" ≠ "") ∧
    search st1 "q" (some "python") 5 = .ok
      [⟨"print(1)", "print one", "python", 0⟩,
       ⟨"print(1)", "print one", "python", padDist⟩,
       ⟨"print(1)", "print one", "python", padDist⟩,
       ⟨"print(1)", "print one", "python", padDist⟩,
       ⟨"print(1)", "print one", "python", padDist⟩] ∧
    ([⟨"print(1)", "print one", "python", 0⟩,
      ⟨"print(1)", "print one", "python", padDist⟩,
      ⟨"print(1)", "print one", "python", padDist⟩,
      ⟨"print(1)", "print one", "python", padDist⟩,
      ⟨"print(1)", "print one", "python", padDist⟩] : List SearchResult).all
      (fun r => r.language == "python") = true :=
  ⟨by decide, rfl,
    C3_language_filter_amended st1 "q" "python" 5 _ (by decide) rfl⟩

/-- C4: the claim says that after `delete_snippet(id)` no subsequent `search`
returns that snippet's record.  The code violates it: the FAISS branch of
`delete_snippet` is literally `pass`, so the state is unchanged and a search
whose nearest neighbor is the deleted snippet still returns it.  Here snippet
`"0"` is deleted from a one-snippet store and the very next search returns
it as the top result. -/
theorem C4_delete_then_search_bug :
    delete_snippet st1 "0" = st1 ∧
    search (delete_snippet st1 "0") "q" none 1 =
      .ok [⟨"print(1)", "print one", "python", 0⟩] :=
  ⟨rfl, rfl⟩

/-- C5: the claim says `search` on an empty enabled store returns `[]` and
does not raise.  The code violates it: FAISS pads the k-NN result with index
`-1`, the guard `if idx < len(self.metadata_store)` lets `-1` through
(`-1 < 0`), and `self.metadata_store[-1]` on the empty metadata list raises
`IndexError`. -/
theorem C5_empty_search_bug :
    search (emptyStore enc384) "q" none 5 = .error .indexError :=
  rfl

/-- C6: inserting a vector whose number of components differs from the index
dimension D = 384 always fails with a dimension-mismatch error and leaves
the store (hence the index size) unchanged.  The check itself lives in the
FAISS library (`Index.add` asserts `d == self.d`), modelled by `faissAdd`;
the error propagates out of `store_snippet` before any state is mutated. -/
theorem C6_dimension_mismatch (st : VectorStore)
    (code description language : String) (user_id : Option String)
    (hen : st.enabled = true)
    (hlen : (st.encode (description ++ "\n\n" ++ code)).length ≠ embeddingDim) :
    store_snippet st code description language user_id =
      (st, .error .dimensionMismatch) := by
  simp [store_snippet, hen, faissAdd, hlen]

theorem C6_dimension_mismatch_witness :
    (emptyStore encBad).enabled = true ∧
    ((emptyStore encBad).encode ("y" ++ "\n\n" ++ "x")).length ≠ embeddingDim ∧
    store_snippet (emptyStore encBad) "x" "y" "z" none =
      (emptyStore encBad, .error .dimensionMismatch) :=
  ⟨rfl, by decide,
    C6_dimension_mismatch (emptyStore encBad) "x" "y" "z" none rfl (by decide)⟩

/-- C7: persisting the store (index file plus metadata file, both written on
every successful `store_snippet`) and then constructing a new `VectorStore`
that loads both artifacts yields a store whose `search` answers are
identical, in content and order, to those of the pre-save store for every
query — for any sequence of prior `store_snippet` / `delete_snippet` calls. -/
theorem C7_save_load_roundtrip (encode : String → List ℤ) (st : VectorStore)
    (query : String) (language : Option String) (limit : Nat)
    (h : Reachable encode st) :
    search (initStore true encode ⟨st.indexFile, st.metadataFile⟩)
        query language limit =
      search st query language limit := by
  rw [load_roundtrip h]

theorem C7_save_load_roundtrip_witness :
    search (initStore true enc384 ⟨st1.indexFile, st1.metadataFile⟩)
        "q" none 5 =
      search st1 "q" none 5 :=
  C7_save_load_roundtrip enc384 st1 "q" none 5
    (Reachable.store (emptyStore enc384) "print(1)" "print one" "python" none
      Reachable.init)

/-- C8, counterexample: the claim says `search` always returns an ordered
sequence of at most `limit` results.  On an empty enabled store it instead
raises `IndexError` (the padding index `-1` passes the guard and subscripts
the empty metadata list), so no sequence is returned at all. -/
theorem C8_overfetch_counterexample :
    search (emptyStore enc384) "q" none 3 = .error .indexError :=
  rfl

/-- C8, amended: for every store holding at least one metadata record, every
query embedding of the index dimension, and every positive `limit`, `search`
requests exactly `limit * 2` nearest-neighbor candidates from the index
(overfetch factor 2 ≥ 2), and returns the order-preserving filtering
(`filterMap`) of that ranked candidate list truncated to at most `limit`
results. -/
theorem C8_overfetch_amended (st : VectorStore) (query : String)
    (language : Option String) (limit : Nat)
    (hen : st.enabled = true) (hm : st.metadataStore ≠ [])
    (hq : (st.encode query).length = embeddingDim) (hl : 0 < limit) :
    (faissSearch st.vectors (st.encode query) (limit * 2)).length = limit * 2 ∧
    search st query language limit =
      .ok (((faissSearch st.vectors (st.encode query) (limit * 2)).filterMap
        (candResult st.metadataStore language)).take limit) ∧
    (((faissSearch st.vectors (st.encode query) (limit * 2)).filterMap
        (candResult st.metadataStore language)).take limit).length ≤ limit := by
  refine ⟨length_faissSearch _ _ _, ?_, ?_⟩
  · simp only [search]
    rw [if_pos hen, if_pos hq]
    have hc : ∀ c ∈ faissSearch st.vectors (st.encode query) (limit * 2),
        (-1 : Int) ≤ c.1 := by
      intro c hcmem
      rcases faissSearch_fst hcmem with h | h
      · omega
      · omega
    have := searchLoop_eq st.metadataStore language limit
      (faissSearch st.vectors (st.encode query) (limit * 2)) [] hm hc
      (by simpa using hl)
    simpa using this
  · simp [List.length_take]

theorem C8_overfetch_witness :
    st1.enabled = true ∧ st1.metadataStore ≠ [] ∧
    (st1.encode "q").length = embeddingDim ∧ 0 < 1 ∧
    ((faissSearch st1.vectors (st1.encode "q") (1 * 2)).length = 1 * 2 ∧
     search st1 "q" none 1 =
       .ok (((faissSearch st1.vectors (st1.encode "q") (1 * 2)).filterMap
         (candResult st1.metadataStore none)).take 1) ∧
     (((faissSearch st1.vectors (st1.encode "q") (1 * 2)).filterMap
         (candResult st1.metadataStore none)).take 1).length ≤ 1) :=
  ⟨rfl, by decide, by decide, by decide,
    C8_overfetch_amended st1 "q" none 1 rfl (by decide) (by decide) (by decide)⟩

/-- C9: when the embedding model is unavailable at construction time
(`enabled = False`), every `store_snippet` call returns `"0"` and leaves the
whole state — index, metadata store, and the persisted files — unchanged,
every `search` call returns `[]`, and `delete_snippet` is a no-op; no call
raises an error. -/
theorem C9_disabled_noop (st : VectorStore)
    (code description language query snippet_id : String)
    (user_id : Option String) (lang : Option String) (limit : Nat)
    (hd : st.enabled = false) :
    store_snippet st code description language user_id = (st, .ok "0") ∧
    search st query lang limit = .ok [] ∧
    delete_snippet st snippet_id = st := by
  refine ⟨?_, ?_, rfl⟩
  · simp [store_snippet, hd]
  · simp [search, hd]

theorem C9_disabled_noop_witness :
    stDisabled.enabled = false ∧
    (store_snippet stDisabled "c" "d" "python" none = (stDisabled, .ok "0") ∧
     search stDisabled "q" none 5 = .ok [] ∧
     delete_snippet stDisabled "0" = stDisabled) :=
  ⟨rfl, C9_disabled_noop stDisabled "c" "d" "python" "q" "0" none none 5 rfl⟩

/-- C10: the claim says a single `search` call returns each stored record at
most once, including when the store holds fewer than `limit * 2` snippets.
The code violates it: each FAISS padding entry `(-1, FLT_MAX)` passes the
guard `idx < len(self.metadata_store)` and Python's `metadata_store[-1]`
returns the LAST record, so a one-snippet store searched with `limit = 5`
returns five copies of the same snippet — the padded copy (identical dict,
score `FLT_MAX`) appears four times. -/
theorem C10_duplicate_results_bug :
    search st1 "q" none 5 = .ok
      [⟨"print(1)", "print one", "python", 0⟩,
       ⟨"print(1)", "print one", "python", padDist⟩,
       ⟨"print(1)", "print one", "python", padDist⟩,
       ⟨"print(1)", "print one", "python", padDist⟩,
       ⟨"print(1)", "print one", "python", padDist⟩] ∧
    ((search st1 "q" none 5).toOption.getD []).count
      ⟨"print(1)", "print one", "python", padDist⟩ = 4 :=
  ⟨rfl, by decide⟩

end VectorSearch
